import Mathlib

/-!
Shallow embedding of the flight-network route finder (`src/computation.py`)
and proofs of the specified properties.

Modelling conventions:
* Python `datetime` values are modelled as integer timestamps (`Int`); a
  `timedelta` is then an `Int` difference.  `timedelta.max` (the "infinite"
  sentinel used by the shortest-time search) is modelled as `none` in
  `Option Int`, every finite value `t` as `some t`.
* Python `float` latitude/longitude are modelled as rationals; no operation
  in scope uses them.
* Python `dict` is modelled as an association list with unique keys
  (`dictGet` / `dictSet` mirror `d[k]` lookup and `d[k] = v` assignment);
  a Python `set` of flights is modelled as a duplicate-free list.  `Flight`
  defines no `__eq__`/`__hash__`, so set membership in Python is object
  identity: the mutation layer (`add_flight`) therefore works on flight
  object references (`FlightRef`: the fields plus an `id()` tag), while
  the query layer, which never tests flight membership in a set, is
  stated over the field values (`FlightNetwork`).
* The recursive traversals terminate because the `visited` set grows on
  every recursive call; in Lean this is made structural with a fuel
  parameter, instantiated at a bound (`fuelOf`) large enough that the fuel
  never runs out (proved where needed).
-/

/-- Airport record (`computation.py`, class `Airport`): a vertex of the
network, identified by its 4-letter `icao` code. -/
structure Airport where
  icao : String
  name : String
  city_iata : String
  country : String
  latitude : Rat
  longitude : Rat
deriving DecidableEq

/-- Flight record (`computation.py`, class `Flight`): a directed,
time-stamped edge between two airports. -/
structure Flight where
  flight_number : String
  airline_name : String
  airline_icao : String
  origin : Airport
  destination : Airport
  departure_time : Int
  arrival_time : Int
deriving DecidableEq

/-- Duration of a single flight (`Flight.get_duration`). -/
def Flight.get_duration (f : Flight) : Int :=
  f.arrival_time - f.departure_time

/-- The flight network (`computation.py`, class `FlightNetwork`):
`airports` maps an ICAO code to its airport, `flights` maps an origin ICAO
code to the set of departing flights. -/
structure FlightNetwork where
  airports : List (String × Airport)
  flights : List (String × List Flight)
deriving DecidableEq

/-- Lookup in a Python dict modelled as an association list. -/
def dictGet {α : Type} : List (String × α) → String → Option α
  | [], _ => none
  | (k, v) :: rest, key => if k = key then some v else dictGet rest key

/-- Assignment `d[k] = v` in a Python dict: replace the entry for `k` if
present, otherwise append a new entry. -/
def dictSet {α : Type} : List (String × α) → String → α → List (String × α)
  | [], key, val => [(key, val)]
  | (k, v) :: rest, key, val =>
      if k = key then (key, val) :: rest else (k, v) :: dictSet rest key val

deriving instance DecidableEq for Except

/-- The empty network (`FlightNetwork.__init__`). -/
def empty_network : FlightNetwork := ⟨[], []⟩

/-- `FlightNetwork.add_airport`: the source performs the unconditional dict
assignment `self.airports[airport.icao] = airport`.  (The no-duplicate
condition is only a documented precondition; nothing is checked.) -/
def add_airport (g : FlightNetwork) (a : Airport) : FlightNetwork :=
  { g with airports := dictSet g.airports a.icao a }

/-- Errors raised by the source (`ValueError msg`, and the `IndexError`
that `all_routes[0]` raises on an empty list).  The constructor
`noRouteFound` belongs to the specification's error vocabulary (§7); the
code never constructs it — it is declared so that the spec's claim about a
dedicated `NoRouteFound` error can be stated and compared with what the
code actually raises. -/
inductive Err where
  | valueError (msg : String)
  | indexError
  | noRouteFound
deriving DecidableEq

/-- A runtime reference to a `Flight` object: the fields together with the
object's identity (CPython's `id()`).  `Flight` defines no `__eq__` or
`__hash__`, so a set of flights compares members by identity, never by
fields; on any real heap an identity determines the object, so equality of
references (identity and fields together) is exactly object identity.  In
particular two references with distinct identities are distinct set
elements even when every field agrees. -/
structure FlightRef where
  ident : Nat
  val : Flight
deriving DecidableEq

/-- The flight network as held by the mutation layer at runtime: the same
airports dictionary, each departing set holding flight object references.
(The query layer never tests flight membership in a set, so its
specification is stated over the field values in `FlightNetwork`.) -/
structure FlightNetworkRef where
  airports : List (String × Airport)
  flights : List (String × List FlightRef)
deriving DecidableEq

/-- Python `set.add` on a set of `Flight` objects: a no-op exactly when
the same object (same identity) is already present; a field-wise identical
but distinct object is added as a new element. -/
def setAdd (s : List FlightRef) (f : FlightRef) : List FlightRef :=
  if f ∈ s then s else s ++ [f]

/-- `FlightNetwork.add_flight`.  The source raises `ValueError` before any
mutation when either endpoint is unregistered; this is rendered
state-passing style as a pair (optional error, network after the call), so
that "the graph is left unmodified on failure" is a statement about the
code rather than an artefact of the embedding. -/
def add_flight (g : FlightNetworkRef) (f : FlightRef) : Option Err × FlightNetworkRef :=
  if (dictGet g.airports f.val.origin.icao).isNone then
    (some (.valueError "Origin airport not in network"), g)
  else if (dictGet g.airports f.val.destination.icao).isNone then
    (some (.valueError "Destination airport not in network"), g)
  else
    match dictGet g.flights f.val.origin.icao with
    | some s =>
      (none, { g with flights := dictSet g.flights f.val.origin.icao (setAdd s f) })
    | none => (none, { g with flights := g.flights ++ [(f.val.origin.icao, [f])] })

/-- `self.flights.get(code, set())` at the reference level. -/
def getFlightsRef (g : FlightNetworkRef) (code : String) : List FlightRef :=
  (dictGet g.flights code).getD []

/-- `FlightNetwork.total_layover`: the source loops `i` from `1` to
`len(route) - 1` accumulating `route[i].departure_time -
route[i-1].arrival_time`; here the same sum of consecutive gaps is
computed by structural recursion. -/
def total_layover : List Flight → Int
  | [] => 0
  | [_] => 0
  | f :: f2 :: rest => (f2.departure_time - f.arrival_time) + total_layover (f2 :: rest)

/-- `self.flights.get(code, set())`: the departing flights of an airport. -/
def getFlights (g : FlightNetwork) (code : String) : List Flight :=
  (dictGet g.flights code).getD []

/-- `FlightNetwork.find_paths`: the recursive DFS helper of
`find_all_routes`.  `visited` holds the airports strictly before
`current`; the source adds `current` on entry (and removes it again when
backtracking), so the membership test is against `current :: visited`.
When the current airport is the target the path so far is recorded and the
branch stops; otherwise every outgoing flight to an unvisited airport is
appended and explored. -/
def find_paths (g : FlightNetwork) :
    Nat → String → String → List Flight → List String → List (List Flight)
  | 0, _, _, _, _ => []
  | fuel + 1, current, target, path, visited =>
    if current = target then [path]
    else
      (getFlights g current).flatMap fun f =>
        if f.destination.icao ∈ current :: visited then []
        else find_paths g fuel f.destination.icao target (path ++ [f]) (current :: visited)

/-- Fuel that the traversals never exhaust: along any branch the distinct
airports on the path all carry outgoing flights (except possibly the last),
so the recursion depth is bounded by the number of `flights` keys. -/
def fuelOf (g : FlightNetwork) : Nat :=
  g.airports.length + g.flights.length + 2

/-- `FlightNetwork.find_all_routes`: checks both codes are registered
(raising `ValueError` otherwise) and runs the DFS from scratch. -/
def find_all_routes (g : FlightNetwork) (from_code to_code : String) :
    Except Err (List (List Flight)) :=
  if (dictGet g.airports from_code).isNone then
    .error (.valueError "Departure airport not found")
  else if (dictGet g.airports to_code).isNone then
    .error (.valueError "Destination airport not found")
  else
    .ok (find_paths g (fuelOf g) from_code to_code [] [])

/-- Strict comparison of timedeltas where `none` stands for
`timedelta.max`: every finite value is below the sentinel, and
`timedelta.max < timedelta.max` is false. -/
def tdLt : Option Int → Option Int → Bool
  | some a, some b => a < b
  | some _, none => true
  | none, _ => false

/-- Recursive core of `FlightNetwork.find_shortest_time_path`
(branch-and-bound over simple paths).  Mirrors the source: `visited` holds
the airports strictly before `start`, which is added on entry; the base
case returns the accumulated path when it beats the incumbent; each
outgoing flight to an unvisited airport is explored only when the extended
time still beats the incumbent (`new_time < best_path[1]`), the incumbent
being updated whenever the recursive call returns a strictly better pair;
finally an empty best path is normalised to `([], timedelta.max)`.  (The
source re-checks airport registration on every recursive call; under the
representation invariant those checks can only fire on the first call, so
they are rendered once in the wrapper below.) -/
def fstp_rec (g : FlightNetwork) :
    Nat → String → String → List String → Int → List Flight →
    List Flight × Option Int → List Flight × Option Int
  | 0, _, _, _, _, _, best => best
  | fuel + 1, start, target, visited, current_time, current_flights, best =>
    if start = target then
      if tdLt (some current_time) best.2 then (current_flights, some current_time) else best
    else
      let best1 := (getFlights g start).foldl
        (fun b f =>
          if f.destination.icao ∈ start :: visited then b
          else
            let new_time := current_time + f.get_duration
            if tdLt (some new_time) b.2 then
              let found := fstp_rec g fuel f.destination.icao target (start :: visited)
                new_time (current_flights ++ [f]) b
              if tdLt found.2 b.2 then found else b
            else b)
        best
      if best1.1.isEmpty then ([], none) else best1

/-- `FlightNetwork.find_shortest_time_path` as a caller sees it: registration
checks (raising `ValueError`), then the recursive search started with no
visited airports, zero accumulated time, an empty path and the incumbent
`([], timedelta.max)`. -/
def find_shortest_time_path (g : FlightNetwork) (start_code end_code : String) :
    Except Err (List Flight × Option Int) :=
  if (dictGet g.airports start_code).isNone then
    .error (.valueError "Departure airport not found")
  else if (dictGet g.airports end_code).isNone then
    .error (.valueError "Destination airport not found")
  else
    .ok (fstp_rec g (fuelOf g) start_code end_code [] 0 [] ([], none))

/-- `FlightNetwork.find_shortest_layover`: enumerates all routes, reads
`all_routes[0]` (an `IndexError` when the list is empty — the source has no
explicit emptiness check), then keeps the route with the strictly smallest
`total_layover`. -/
def find_shortest_layover (g : FlightNetwork) (start_code end_code : String) :
    Except Err (List Flight) :=
  match find_all_routes g start_code end_code with
  | .error e => .error e
  | .ok [] => .error .indexError
  | .ok (r0 :: rest) =>
    .ok (rest.foldl
      (fun acc route =>
        if total_layover route < acc.2 then (route, total_layover route) else acc)
      (r0, total_layover r0)).1

/-- Python `str.lower`, character-by-character case folding (spelled out on
the character list so that it evaluates by kernel reduction). -/
def strLower (s : String) : String := ⟨s.data.map Char.toLower⟩

/-- The per-route predicate of `find_routes_by_airline`: some flight of the
route is operated by the given airline, compared case-insensitively. -/
def routeHasAirline (airline : String) (route : List Flight) : Bool :=
  route.any fun f => strLower f.airline_name == strLower airline

/-- `FlightNetwork.find_routes_by_airline`: keeps the routes of
`find_all_routes` in which at least one flight's airline name matches. -/
def find_routes_by_airline (g : FlightNetwork) (origin_code destination_code airline : String) :
    Except Err (List (List Flight)) :=
  match find_all_routes g origin_code destination_code with
  | .error e => .error e
  | .ok all_routes => .ok (all_routes.filter (routeHasAirline airline))

/-- The per-route list built by `find_valid_routes`: the destination
countries of the route's flights that are not in the visa-required list
(duplicates kept, as in the source). -/
def visaFreeCountries (countries_required_visa : List String) (route : List Flight) :
    List String :=
  route.filterMap fun f =>
    if f.destination.country ∈ countries_required_visa then none
    else some f.destination.country

/-- `FlightNetwork.find_valid_routes`.  The source fetches the list of
visa-required countries for the passport from a remote service; that
external collaborator is modelled as the function argument `visa_lookup`
(passport ↦ visa-required country names), after which the source keeps each
route whose collected visa-free destination-country list is non-empty. -/
def find_valid_routes (visa_lookup : String → List String) (g : FlightNetwork)
    (passport origin_code destination_code : String) :
    Except Err (List (List Flight)) :=
  let countries_required_visa := visa_lookup passport
  match find_all_routes g origin_code destination_code with
  | .error e => .error e
  | .ok all_routes =>
    .ok (all_routes.filter fun route =>
      !(visaFreeCountries countries_required_visa route).isEmpty)

/-- Sum of the flight durations of a route (the quantity minimised by
`find_shortest_time_path`). -/
def routeCost (route : List Flight) : Int :=
  (route.map Flight.get_duration).sum

/-- A (chain of flights of the graph) from airport code `a` to airport code
`b`: each flight is drawn from the departing set of the airport reached so
far, and the chain ends exactly at `b`.  This is the graph-level notion of
"route from `a` to `b`". -/
def chainFrom (g : FlightNetwork) : String → String → List Flight → Prop
  | a, b, [] => a = b
  | a, b, f :: rest => f ∈ getFlights g a ∧ chainFrom g f.destination.icao b rest

instance chainFromDec (g : FlightNetwork) :
    (a : String) → (b : String) → (r : List Flight) → Decidable (chainFrom g a b r)
  | _, _, [] => inferInstanceAs (Decidable (_ = _))
  | _, b, f :: rest =>
    @instDecidableAnd _ _ (inferInstance) (chainFromDec g f.destination.icao b rest)

/-- The airports a route starting at `a` passes through, in order. -/
def routeCodes (a : String) (route : List Flight) : List String :=
  a :: route.map fun f => f.destination.icao

/-- A route starting at `a` is simple when it visits no airport twice. -/
def simpleRoute (a : String) (route : List Flight) : Prop :=
  (routeCodes a route).Nodup

instance (a : String) (route : List Flight) : Decidable (simpleRoute a route) :=
  List.nodupDecidable _

/-- Consecutive flights are chained airport-to-airport: each flight's
destination is the next flight's origin. -/
def chainAdjacent : List Flight → Prop
  | [] => True
  | [_] => True
  | f :: f2 :: rest => f.destination = f2.origin ∧ chainAdjacent (f2 :: rest)

instance chainAdjacentDec : (route : List Flight) → Decidable (chainAdjacent route)
  | [] => inferInstanceAs (Decidable True)
  | [_] => inferInstanceAs (Decidable True)
  | _ :: f2 :: rest =>
    @instDecidableAnd _ _ inferInstance (chainAdjacentDec (f2 :: rest))

/-- Consecutive flights are ordered in time: each flight arrives no later
than the next departs (layovers are non-negative). -/
def timeOrdered : List Flight → Prop
  | [] => True
  | [_] => True
  | f :: f2 :: rest => f.arrival_time ≤ f2.departure_time ∧ timeOrdered (f2 :: rest)

instance timeOrderedDec : (route : List Flight) → Decidable (timeOrdered route)
  | [] => inferInstanceAs (Decidable True)
  | [_] => inferInstanceAs (Decidable True)
  | _ :: f2 :: rest =>
    @instDecidableAnd _ _ inferInstance (timeOrderedDec (f2 :: rest))

/-- A route starts at `a`: its first flight (if any) departs from `a`. -/
def startsAt (a : String) : List Flight → Prop
  | [] => True
  | f :: _ => f.origin.icao = a

instance startsAtDec (a : String) : (r : List Flight) → Decidable (startsAt a r)
  | [] => inferInstanceAs (Decidable True)
  | _ :: _ => inferInstanceAs (Decidable (_ = _))

/-- A route ends at `b`: its last flight (if any) lands at `b`. -/
def endsAt (b : String) : List Flight → Prop
  | [] => True
  | [f] => f.destination.icao = b
  | _ :: f2 :: rest => endsAt b (f2 :: rest)

instance endsAtDec (b : String) : (r : List Flight) → Decidable (endsAt b r)
  | [] => inferInstanceAs (Decidable True)
  | [_] => inferInstanceAs (Decidable (_ = _))
  | _ :: f2 :: rest => endsAtDec b (f2 :: rest)

/-- Representation invariants of `FlightNetwork` (the docstring invariants
of the source classes): airport keys match the stored airports and are
unique, flight-dict keys are unique and registered, every stored flight
departs from its key, both of its endpoint airports are registered (as the
very airport objects the flight references), each flight set is
duplicate-free, and each flight satisfies the `Flight` invariants
(`departure_time < arrival_time`, distinct endpoints). -/
def Wf (g : FlightNetwork) : Prop :=
  (∀ p ∈ g.airports, p.2.icao = p.1) ∧
  (g.airports.map Prod.fst).Nodup ∧
  (g.flights.map Prod.fst).Nodup ∧
  (∀ p ∈ g.flights, ¬ (dictGet g.airports p.1).isNone ∧ p.2.Nodup ∧
    ∀ f ∈ p.2,
      f.origin.icao = p.1 ∧
      dictGet g.airports f.origin.icao = some f.origin ∧
      dictGet g.airports f.destination.icao = some f.destination ∧
      f.departure_time < f.arrival_time ∧
      f.origin ≠ f.destination)

instance (g : FlightNetwork) : Decidable (Wf g) := by
  unfold Wf; infer_instance

/-- The departure codes of a route starting at `a`: the airport each of its
flights leaves from. -/
def depCodes (a : String) : List Flight → List String
  | [] => []
  | f :: rest => a :: depCodes f.destination.icao rest

/-! ### Concrete networks used to witness and refute claims -/

/-- Example airport (the illustrative graph of the specification, §8). -/
def apA : Airport := ⟨"AAAA", "Airport A", "AIA", "CountryA", 0, 10⟩

def apB : Airport := ⟨"BBBB", "Airport B", "BIB", "CountryB", 10, 20⟩

def apC : Airport := ⟨"CCCC", "Airport C", "CIC", "CountryC", 20, 30⟩

/-- A second airport carrying the same ICAO code as `apA` (used to probe
duplicate insertion). -/
def apA2 : Airport := ⟨"AAAA", "Airport A rebuilt", "AIA", "CountryA", 1, 11⟩

def fAB : Flight := ⟨"FL1", "AirOne", "AON", apA, apB, 600, 720⟩

def fBC : Flight := ⟨"FL2", "AirTwo", "ATW", apB, apC, 780, 900⟩

def fAC : Flight := ⟨"FL3", "AirOne", "AON", apA, apC, 600, 960⟩

/-- The specification's example network: `AAAA→BBBB` (10:00–12:00),
`BBBB→CCCC` (13:00–15:00), `AAAA→CCCC` (10:00–16:00), times in minutes. -/
def gEx : FlightNetwork :=
  ⟨[("AAAA", apA), ("BBBB", apB), ("CCCC", apC)],
   [("AAAA", [fAB, fAC]), ("BBBB", [fBC])]⟩

def fBad1 : Flight := ⟨"BD1", "AirOne", "AON", apA, apB, 0, 100⟩

/-- A connecting flight departing before the feeder lands (well-formed in
isolation: it departs before it arrives). -/
def fBad2 : Flight := ⟨"BD2", "AirTwo", "ATW", apB, apC, 50, 60⟩

/-- A network whose only `AAAA`-to-`CCCC` route has a negative layover:
`fBad1` lands at 100 but `fBad2` departs at 50. -/
def gBad : FlightNetwork :=
  ⟨[("AAAA", apA), ("BBBB", apB), ("CCCC", apC)],
   [("AAAA", [fBad1]), ("BBBB", [fBad2])]⟩

/-- A fresh flight between registered airports, not yet in `gEx`. -/
def fNew : Flight := ⟨"FL9", "AirThree", "ATH", apB, apA, 100, 200⟩

/-- A flight departing from an airport `gEx` does not know. -/
def fGhost : Flight :=
  ⟨"FL0", "AirOne", "AON", ⟨"ZZZZ", "Nowhere", "ZZduring", "CountryZ", 0, 0⟩, apA, 0, 50⟩

/-- A stored flight object (identity 1) of the reference-level network. -/
def fRef1 : FlightRef := ⟨1, fBC⟩

/-- A distinct flight object (identity 2) whose fields are identical to
those of `fRef1`. -/
def fRef2 : FlightRef := ⟨2, fBC⟩

/-- The reference-level network holding the single flight object
`fRef1`. -/
def gRef : FlightNetworkRef :=
  ⟨[("AAAA", apA), ("BBBB", apB), ("CCCC", apC)], [("BBBB", [fRef1])]⟩

/-- A reference to a flight whose origin `gRef` does not know. -/
def fRefGhost : FlightRef := ⟨3, fGhost⟩

/-- A reference to a fresh valid flight not yet stored in `gRef`. -/
def fRefNew : FlightRef := ⟨4, fNew⟩

/-- Non-strict counterpart of `tdLt` (with `none` again the
`timedelta.max` sentinel, the top element). -/
def tdLe : Option Int → Option Int → Prop
  | _, none => True
  | none, some _ => False
  | some a, some b => a ≤ b

/-- The incumbent of the branch-and-bound is either still the initial
`([], timedelta.max)` pair or a complete simple route from `a` to `b`
recorded together with its exact summed flight duration. -/
def GoodBest (g : FlightNetwork) (a b : String) (best : List Flight × Option Int) : Prop :=
  best = ([], none) ∨
  (chainFrom g a b best.1 ∧ best.1 ≠ [] ∧ simpleRoute a best.1 ∧
    best.2 = some (routeCost best.1))

/-- The loop body of `fstp_rec`'s fold, factored out by name for the
proofs; definitionally equal to the lambda inside `fstp_rec`. -/
def fstpStep (g : FlightNetwork) (fuel : Nat) (current target : String)
    (visited : List String) (ct : Int) (cf : List Flight)
    (bb : List Flight × Option Int) (f : Flight) : List Flight × Option Int :=
  if f.destination.icao ∈ current :: visited then bb
  else
    if tdLt (some (ct + f.get_duration)) bb.2 then
      if tdLt (fstp_rec g fuel f.destination.icao target (current :: visited)
          (ct + f.get_duration) (cf ++ [f]) bb).2 bb.2 then
        fstp_rec g fuel f.destination.icao target (current :: visited)
          (ct + f.get_duration) (cf ++ [f]) bb
      else bb
    else bb

/-! ### Lemmas about the dictionary model -/

theorem dictGet_dictSet_self {α : Type} (l : List (String × α)) (k : String) (v : α) :
    dictGet (dictSet l k v) k = some v := by
  induction l with
  | nil => simp [dictGet, dictSet]
  | cons p rest ih =>
    by_cases h : p.1 = k
    · simp [dictGet, dictSet, h]
    · simp [dictGet, dictSet, h, ih]

theorem dictGet_dictSet_ne {α : Type} (l : List (String × α)) (k k' : String) (v : α)
    (h : k' ≠ k) : dictGet (dictSet l k v) k' = dictGet l k' := by
  have hk : k ≠ k' := fun hh => h hh.symm
  induction l with
  | nil => simp [dictGet, dictSet, hk]
  | cons p rest ih =>
    obtain ⟨pk, pv⟩ := p
    by_cases hp : pk = k
    · subst hp
      simp [dictGet, dictSet, hk]
    · by_cases hp' : pk = k'
      · simp [dictGet, dictSet, hp, hp', h]
      · simp [dictGet, dictSet, hp, hp', ih]

theorem dictGet_mem {α : Type} {l : List (String × α)} {k : String} {v : α}
    (h : dictGet l k = some v) : (k, v) ∈ l := by
  induction l with
  | nil => simp [dictGet] at h
  | cons p rest ih =>
    obtain ⟨pk, pv⟩ := p
    by_cases hp : pk = k
    · subst hp
      simp only [dictGet, if_pos rfl] at h
      injection h with h
      subst h
      exact List.mem_cons_self _ _
    · simp only [dictGet, if_neg hp] at h
      exact List.mem_cons_of_mem _ (ih h)

theorem dictSet_self_of_get {α : Type} {l : List (String × α)} {k : String} {v : α}
    (h : dictGet l k = some v) : dictSet l k v = l := by
  induction l with
  | nil => simp [dictGet] at h
  | cons p rest ih =>
    obtain ⟨pk, pv⟩ := p
    by_cases hp : pk = k
    · subst hp
      simp only [dictGet, if_pos rfl] at h
      injection h with h
      subst h
      simp [dictSet]
    · simp only [dictGet, if_neg hp] at h
      simp [dictSet, hp, ih h]

theorem dictGet_append {α : Type} (l m : List (String × α)) (k : String) :
    dictGet (l ++ m) k =
      match dictGet l k with
      | some v => some v
      | none => dictGet m k := by
  induction l with
  | nil => simp [dictGet]
  | cons p rest ih =>
    by_cases hp : p.1 = k
    · simp [dictGet, hp]
    · simp [dictGet, hp, ih]

/-! ### Route-shape lemmas -/

theorem routeCost_nil : routeCost [] = 0 := rfl

theorem routeCost_cons (f : Flight) (r : List Flight) :
    routeCost (f :: r) = f.get_duration + routeCost r := by
  simp [routeCost]

theorem routeCost_append (r s : List Flight) :
    routeCost (r ++ s) = routeCost r + routeCost s := by
  simp [routeCost]

/-- Unfolding of `Wf` into its components for a flight drawn from some
airport's departing set. -/
theorem wf_getFlights {g : FlightNetwork} {c : String} {f : Flight}
    (hwf : Wf g) (hf : f ∈ getFlights g c) :
    f.origin.icao = c ∧
    dictGet g.airports f.origin.icao = some f.origin ∧
    dictGet g.airports f.destination.icao = some f.destination ∧
    f.departure_time < f.arrival_time := by
  unfold getFlights at hf
  cases hget : dictGet g.flights c with
  | none => rw [hget] at hf; simp at hf
  | some s =>
    rw [hget] at hf
    simp only [Option.getD_some] at hf
    have hmem : (c, s) ∈ g.flights := dictGet_mem hget
    obtain ⟨-, -, -, h4⟩ := hwf
    obtain ⟨-, -, hflights⟩ := h4 (c, s) hmem
    obtain ⟨h1, h2, h3, h5, -⟩ := hflights f hf
    exact ⟨h1, h2, h3, h5⟩

/-- A flight drawn from some airport's departing set names a key of the
flights dictionary. -/
theorem getFlights_key_mem {g : FlightNetwork} {c : String} {f : Flight}
    (hf : f ∈ getFlights g c) : c ∈ g.flights.map Prod.fst := by
  unfold getFlights at hf
  cases hget : dictGet g.flights c with
  | none => rw [hget] at hf; simp at hf
  | some s =>
    have hmem : (c, s) ∈ g.flights := dictGet_mem hget
    exact List.mem_map.2 ⟨(c, s), hmem, rfl⟩

theorem chainFrom_nil {g : FlightNetwork} {a b : String} :
    chainFrom g a b [] ↔ a = b := Iff.rfl

theorem chainFrom_cons {g : FlightNetwork} {a b : String} {f : Flight} {r : List Flight} :
    chainFrom g a b (f :: r) ↔ f ∈ getFlights g a ∧ chainFrom g f.destination.icao b r :=
  Iff.rfl

/-- Extending a chain by one more outgoing flight of its endpoint. -/
theorem chainFrom_append_one {g : FlightNetwork} {a c : String} {r : List Flight} {f : Flight}
    (h : chainFrom g a c r) (hf : f ∈ getFlights g c) :
    chainFrom g a f.destination.icao (r ++ [f]) := by
  induction r generalizing a with
  | nil =>
    have : a = c := h
    subst this
    exact ⟨hf, rfl⟩
  | cons f0 rest ih =>
    obtain ⟨h0, hrest⟩ := h
    exact ⟨h0, ih hrest⟩

/-- Every flight of a chain is drawn from the network. -/
theorem chainFrom_flights_cost_nonneg {g : FlightNetwork} (hwf : Wf g) :
    ∀ {a b : String} {r : List Flight}, chainFrom g a b r → 0 ≤ routeCost r := by
  intro a b r
  induction r generalizing a with
  | nil => intro _; simp [routeCost]
  | cons f rest ih =>
    intro h
    obtain ⟨hf, hrest⟩ := h
    have hd := (wf_getFlights hwf hf).2.2.2
    have hrest' := ih hrest
    rw [routeCost_cons]
    have : 0 ≤ f.get_duration := by
      unfold Flight.get_duration
      omega
    omega

/-- A chain ends at its target airport. -/
theorem chainFrom_endsAt {g : FlightNetwork} :
    ∀ {a b : String} {r : List Flight}, chainFrom g a b r → endsAt b r := by
  intro a b r
  induction r generalizing a with
  | nil => intro _; trivial
  | cons f rest ih =>
    intro h
    obtain ⟨hf, hrest⟩ := h
    cases rest with
    | nil => exact hrest
    | cons f2 rest2 => exact ih hrest

/-- A chain starts at its source airport (given the invariant that stored
flights depart from their dictionary key). -/
theorem chainFrom_startsAt {g : FlightNetwork} {a b : String} {r : List Flight}
    (hwf : Wf g) (h : chainFrom g a b r) : startsAt a r := by
  cases r with
  | nil => trivial
  | cons f rest =>
    obtain ⟨hf, -⟩ := h
    exact (wf_getFlights hwf hf).1

/-- Consecutive flights of a chain meet at the same airport object (both
sides are the airport registered under the shared ICAO code). -/
theorem chainFrom_chainAdjacent {g : FlightNetwork} (hwf : Wf g) :
    ∀ {a b : String} {r : List Flight}, chainFrom g a b r → chainAdjacent r := by
  intro a b r
  induction r generalizing a with
  | nil => intro _; trivial
  | cons f rest ih =>
    intro h
    obtain ⟨hf, hrest⟩ := h
    cases rest with
    | nil => trivial
    | cons f2 rest2 =>
      have hf2 : f2 ∈ getFlights g f.destination.icao := hrest.1
      have hadj : f.destination = f2.origin := by
        have hdreg := (wf_getFlights hwf hf).2.2.1
        have horig : f2.origin.icao = f.destination.icao := (wf_getFlights hwf hf2).1
        have horeg := (wf_getFlights hwf hf2).2.1
        rw [horig, hdreg] at horeg
        exact Option.some_inj.mp horeg
      have htail : chainAdjacent (f2 :: rest2) := ih hrest
      exact ⟨hadj, htail⟩

/-! ### DFS enumeration: soundness and completeness -/

theorem find_paths_zero (g : FlightNetwork) (current target : String) (path : List Flight)
    (visited : List String) : find_paths g 0 current target path visited = [] := rfl

theorem find_paths_succ (g : FlightNetwork) (fuel : Nat) (current target : String)
    (path : List Flight) (visited : List String) :
    find_paths g (fuel + 1) current target path visited =
      if current = target then [path]
      else
        (getFlights g current).flatMap fun f =>
          if f.destination.icao ∈ current :: visited then []
          else find_paths g fuel f.destination.icao target (path ++ [f]) (current :: visited) :=
  rfl

/-- Everything the DFS records extends the path so far by a chain of graph
flights reaching the target, whose fresh airports avoid the visited set and
repeat nothing. -/
theorem find_paths_sound (g : FlightNetwork) (target : String) :
    ∀ (fuel : Nat) (current : String) (path : List Flight) (visited : List String)
      (r : List Flight), r ∈ find_paths g fuel current target path visited →
      ∃ ext, r = path ++ ext ∧ chainFrom g current target ext ∧
        (routeCodes current ext).Nodup ∧
        ∀ c ∈ ext.map (fun f => f.destination.icao), c ∉ visited := by
  intro fuel
  induction fuel with
  | zero => intro current path visited r hr; simp [find_paths] at hr
  | succ fuel ih =>
    intro current path visited r hr
    rw [find_paths_succ] at hr
    by_cases hct : current = target
    · rw [if_pos hct] at hr
      simp only [List.mem_singleton] at hr
      subst hr
      exact ⟨[], by simp, hct, by simp [routeCodes], by simp⟩
    · rw [if_neg hct] at hr
      simp only [List.mem_flatMap] at hr
      obtain ⟨f, hf, hr⟩ := hr
      by_cases hv : f.destination.icao ∈ current :: visited
      · rw [if_pos hv] at hr; simp at hr
      · rw [if_neg hv] at hr
        obtain ⟨ext, hre, hchain, hnodup, hnv⟩ :=
          ih f.destination.icao (path ++ [f]) (current :: visited) r hr
        refine ⟨f :: ext, by simp [hre], ⟨hf, hchain⟩, ?_, ?_⟩
        · simp only [routeCodes, List.map_cons] at hnodup ⊢
          refine List.nodup_cons.2 ⟨?_, hnodup⟩
          intro hmem
          rcases List.mem_cons.1 hmem with hc | hc
          · exact hv (by rw [← hc]; exact List.mem_cons_self _ _)
          · exact absurd (List.mem_cons_self current visited) (hnv current hc)
        · intro c hc
          simp only [List.map_cons, List.mem_cons] at hc
          rcases hc with hc | hc
          · subst hc
            intro hmem
            exact hv (List.mem_cons_of_mem _ hmem)
          · intro hmem
            exact hnv c hc (List.mem_cons_of_mem _ hmem)

/-- A nonempty chain puts its target among its destination codes. -/
theorem chainFrom_target_mem {g : FlightNetwork} :
    ∀ {a b : String} {f : Flight} {r : List Flight},
      chainFrom g a b (f :: r) → b ∈ (f :: r).map (fun fl => fl.destination.icao) := by
  intro a b f r
  induction r generalizing a f with
  | nil =>
    intro h
    have hd : f.destination.icao = b := h.2
    simp [hd]
  | cons f2 rest ih =>
    intro h
    have hmem := ih h.2
    simp only [List.map_cons, List.mem_cons] at hmem ⊢
    tauto

/-- Every simple chain of graph flights is found by the DFS, provided the
fuel exceeds the chain length. -/
theorem find_paths_complete (g : FlightNetwork) (target : String) :
    ∀ (r : List Flight) (fuel : Nat) (current : String) (path : List Flight)
      (visited : List String),
      chainFrom g current target r →
      (routeCodes current r).Nodup →
      (∀ c ∈ r.map (fun f => f.destination.icao), c ∉ visited) →
      r.length + 1 ≤ fuel →
      (path ++ r) ∈ find_paths g fuel current target path visited := by
  intro r
  induction r with
  | nil =>
    intro fuel current path visited hchain hnodup hnv hfuel
    have hct : current = target := hchain
    subst hct
    cases fuel with
    | zero => omega
    | succ fuel => rw [find_paths_succ, if_pos rfl]; simp
  | cons f rest ih =>
    intro fuel current path visited hchain hnodup hnv hfuel
    obtain ⟨hf, hchainrest⟩ := hchain
    cases fuel with
    | zero => omega
    | succ fuel =>
      rw [find_paths_succ]
      have hcodes : routeCodes current (f :: rest) =
          current :: routeCodes f.destination.icao rest := by
        simp [routeCodes]
      rw [hcodes] at hnodup
      have hhead : current ∉ routeCodes f.destination.icao rest :=
        (List.nodup_cons.1 hnodup).1
      have htail : (routeCodes f.destination.icao rest).Nodup :=
        (List.nodup_cons.1 hnodup).2
      have hct : current ≠ target := by
        intro h
        subst h
        have hmem := chainFrom_target_mem (g := g) ⟨hf, hchainrest⟩
        simp only [routeCodes] at hhead
        rw [List.map_cons] at hmem
        exact hhead (by
          rcases List.mem_cons.1 hmem with hc | hc
          · exact hc ▸ List.mem_cons_self _ _
          · exact List.mem_cons_of_mem _ hc)
      rw [if_neg hct]
      simp only [List.mem_flatMap]
      refine ⟨f, hf, ?_⟩
      have hguard : f.destination.icao ∉ current :: visited := by
        intro hmem
        rcases List.mem_cons.1 hmem with hc | hc
        · exact hhead (by rw [hc]; exact List.mem_cons_self _ _)
        · exact hnv f.destination.icao (by simp) hc
      rw [if_neg hguard]
      have hsplit : path ++ f :: rest = (path ++ [f]) ++ rest := by simp
      rw [hsplit]
      refine ih fuel f.destination.icao (path ++ [f]) (current :: visited)
        hchainrest htail ?_ (by simp only [List.length_cons] at hfuel; omega)
      intro c hc hcmem
      rcases List.mem_cons.1 hcmem with hc2 | hc2
      · subst hc2
        exact hhead (by simp only [routeCodes]; exact List.mem_cons_of_mem _ hc)
      · exact hnv c (by simp only [List.map_cons]; exact List.mem_cons_of_mem _ hc) hc2

theorem depCodes_length (a : String) (r : List Flight) :
    (depCodes a r).length = r.length := by
  induction r generalizing a with
  | nil => rfl
  | cons f rest ih => simp [depCodes, ih]

theorem depCodes_subset_routeCodes :
    ∀ (a : String) (r : List Flight) (c : String), c ∈ depCodes a r → c ∈ routeCodes a r := by
  intro a r
  induction r generalizing a with
  | nil => intro c hc; simp [depCodes] at hc
  | cons f rest ih =>
    intro c hc
    rcases List.mem_cons.1 hc with hc | hc
    · subst hc; exact List.mem_cons_self _ _
    · have := ih f.destination.icao c hc
      simp only [routeCodes, List.map_cons] at this ⊢
      exact List.mem_cons_of_mem _ this

theorem depCodes_nodup {a : String} {r : List Flight}
    (h : (routeCodes a r).Nodup) : (depCodes a r).Nodup := by
  induction r generalizing a with
  | nil => simp [depCodes]
  | cons f rest ih =>
    have hcodes : routeCodes a (f :: rest) = a :: routeCodes f.destination.icao rest := by
      simp [routeCodes]
    rw [hcodes] at h
    refine List.nodup_cons.2 ⟨?_, ih (List.nodup_cons.1 h).2⟩
    intro hmem
    exact (List.nodup_cons.1 h).1
      (depCodes_subset_routeCodes f.destination.icao rest a hmem)

theorem depCodes_mem_keys {g : FlightNetwork} :
    ∀ {a b : String} {r : List Flight}, chainFrom g a b r →
      ∀ c ∈ depCodes a r, c ∈ g.flights.map Prod.fst := by
  intro a b r
  induction r generalizing a with
  | nil => intro h c hc; simp [depCodes] at hc
  | cons f rest ih =>
    intro h c hc
    rcases List.mem_cons.1 hc with hc | hc
    · subst hc; exact getFlights_key_mem h.1
    · exact ih h.2 c hc

theorem nodup_subset_length {l m : List String} (h : l.Nodup) (hs : ∀ x ∈ l, x ∈ m) :
    l.length ≤ m.length := by
  have h1 : l.toFinset.card = l.length := List.toFinset_card_of_nodup h
  have h2 : l.toFinset ⊆ m.toFinset := by
    intro x hx
    simp only [List.mem_toFinset] at hx ⊢
    exact hs x hx
  have h3 := Finset.card_le_card h2
  have h4 : m.toFinset.card ≤ m.length := m.toFinset_card_le
  omega

/-- Simple chains are no longer than the number of airports with departing
flights, hence `fuelOf` always suffices for them. -/
theorem chain_length_le {g : FlightNetwork} {a b : String} {r : List Flight}
    (hchain : chainFrom g a b r) (hnodup : (routeCodes a r).Nodup) :
    r.length ≤ g.flights.length := by
  have h1 := depCodes_length a r
  have h2 := nodup_subset_length (depCodes_nodup hnodup) (depCodes_mem_keys hchain)
  rw [List.length_map] at h2
  omega

/-! ### Claim C1 -/

/-- Claim C1, as stated, is false: `find_paths` never inspects flight
times, so a returned route can violate time-ordering.  In `gBad` (which
satisfies every representation invariant) the only route from `AAAA` to
`CCCC` boards a connection that departs before the first leg lands. -/
theorem claim_C1_counterexample :
    Wf gBad ∧
    find_all_routes gBad "AAAA" "CCCC" = .ok [[fBad1, fBad2]] ∧
    ¬ timeOrdered [fBad1, fBad2] := by decide

/-- Claim C1 (amended): for a well-formed network, every route returned by
`find_all_routes a b` starts at `a`, ends at `b`, is chain-adjacent and is
simple.  (The original claim's time-ordering clause is refuted by
`claim_C1_counterexample`; nothing in the enumeration checks times.) -/
theorem claim_C1 (g : FlightNetwork) (a b : String) (l : List (List Flight))
    (hwf : Wf g) (h : find_all_routes g a b = .ok l) :
    ∀ r ∈ l, startsAt a r ∧ endsAt b r ∧ chainAdjacent r ∧ simpleRoute a r := by
  intro r hr
  unfold find_all_routes at h
  by_cases h1 : (dictGet g.airports a).isNone
  · rw [if_pos h1] at h; cases h
  · rw [if_neg h1] at h
    by_cases h2 : (dictGet g.airports b).isNone
    · rw [if_pos h2] at h; cases h
    · rw [if_neg h2] at h
      injection h with h
      subst h
      obtain ⟨ext, hre, hchain, hnodup, -⟩ := find_paths_sound g b (fuelOf g) a [] [] r hr
      simp only [List.nil_append] at hre
      subst hre
      exact ⟨chainFrom_startsAt hwf hchain, chainFrom_endsAt hchain,
        chainFrom_chainAdjacent hwf hchain, hnodup⟩

/-- Witness for `claim_C1` on the specification's example network. -/
theorem claim_C1_witness :
    Wf gEx ∧ find_all_routes gEx "AAAA" "CCCC" = .ok [[fAB, fBC], [fAC]] ∧
    ∀ r ∈ [[fAB, fBC], [fAC]],
      startsAt "AAAA" r ∧ endsAt "CCCC" r ∧ chainAdjacent r ∧ simpleRoute "AAAA" r :=
  ⟨by decide, by decide,
    claim_C1 gEx "AAAA" "CCCC" [[fAB, fBC], [fAC]] (by decide) (by decide)⟩

/-! ### Claim C2 -/

/-- Claim C2: every simple (and in particular every simple time-ordered)
route from `a` to `b` built from the network's flights is returned by
`find_all_routes a b`, and when `b` is unreachable from `a` (no chain of
flights at all) the returned list is empty. -/
theorem claim_C2 (g : FlightNetwork) (a b : String) (l : List (List Flight))
    (h : find_all_routes g a b = .ok l) :
    (∀ r, chainFrom g a b r → simpleRoute a r → timeOrdered r → r ∈ l) ∧
    ((¬ ∃ r, chainFrom g a b r) → l = []) := by
  unfold find_all_routes at h
  by_cases h1 : (dictGet g.airports a).isNone
  · rw [if_pos h1] at h; cases h
  · rw [if_neg h1] at h
    by_cases h2 : (dictGet g.airports b).isNone
    · rw [if_pos h2] at h; cases h
    · rw [if_neg h2] at h
      injection h with h
      subst h
      constructor
      · intro r hchain hsimple htime
        have hlen := chain_length_le hchain hsimple
        have hfuel : r.length + 1 ≤ fuelOf g := by
          unfold fuelOf; omega
        have := find_paths_complete g b r (fuelOf g) a [] [] hchain hsimple
          (by simp) hfuel
        simpa using this
      · intro hnone
        by_contra hne
        obtain ⟨r, hr⟩ := List.exists_mem_of_ne_nil _ hne
        obtain ⟨ext, -, hchain, -, -⟩ := find_paths_sound g b (fuelOf g) a [] [] r hr
        exact hnone ⟨ext, hchain⟩

/-- Witness for `claim_C2`: the two-leg route of the example network is
among the enumerated routes. -/
theorem claim_C2_witness :
    find_all_routes gEx "AAAA" "CCCC" = .ok [[fAB, fBC], [fAC]] ∧
    [fAB, fBC] ∈ [[fAB, fBC], [fAC]] :=
  ⟨by decide,
    (claim_C2 gEx "AAAA" "CCCC" [[fAB, fBC], [fAC]] (by decide)).1
      [fAB, fBC] (by decide) (by decide) (by decide)⟩

/-! ### Claim C4 (and C9, C10): shortest layover -/

/-- The strict-improvement fold of `find_shortest_layover` keeps a pair
(route, its layover), only moves to routes from the remaining list, never
increases the tracked minimum, and ends below every remaining layover. -/
theorem layover_fold_spec (rest : List (List Flight)) :
    ∀ acc : List Flight × Int, acc.2 = total_layover acc.1 →
      (rest.foldl
        (fun acc route =>
          if total_layover route < acc.2 then (route, total_layover route) else acc)
        acc).2 =
        total_layover (rest.foldl
          (fun acc route =>
            if total_layover route < acc.2 then (route, total_layover route) else acc)
          acc).1 ∧
      ((rest.foldl
        (fun acc route =>
          if total_layover route < acc.2 then (route, total_layover route) else acc)
        acc).1 = acc.1 ∨
       (rest.foldl
        (fun acc route =>
          if total_layover route < acc.2 then (route, total_layover route) else acc)
        acc).1 ∈ rest) ∧
      (rest.foldl
        (fun acc route =>
          if total_layover route < acc.2 then (route, total_layover route) else acc)
        acc).2 ≤ acc.2 ∧
      ∀ r ∈ rest,
        (rest.foldl
          (fun acc route =>
            if total_layover route < acc.2 then (route, total_layover route) else acc)
          acc).2 ≤ total_layover r := by
  induction rest with
  | nil =>
    intro acc hacc
    exact ⟨hacc, Or.inl rfl, le_refl _, by simp⟩
  | cons r0 rest ih =>
    intro acc hacc
    simp only [List.foldl_cons]
    by_cases hc : total_layover r0 < acc.2
    · rw [if_pos hc]
      obtain ⟨h1, h2, h3, h4⟩ := ih (r0, total_layover r0) rfl
      refine ⟨h1, ?_, ?_, ?_⟩
      · rcases h2 with h2 | h2
        · exact Or.inr (h2 ▸ List.mem_cons_self _ _)
        · exact Or.inr (List.mem_cons_of_mem _ h2)
      · exact le_of_lt (lt_of_le_of_lt h3 hc)
      · intro r hr
        rcases List.mem_cons.1 hr with hr | hr
        · subst hr; exact h3
        · exact h4 r hr
    · rw [if_neg hc]
      obtain ⟨h1, h2, h3, h4⟩ := ih acc hacc
      refine ⟨h1, ?_, h3, ?_⟩
      · rcases h2 with h2 | h2
        · exact Or.inl h2
        · exact Or.inr (List.mem_cons_of_mem _ h2)
      · intro r hr
        rcases List.mem_cons.1 hr with hr | hr
        · subst hr; exact le_trans h3 (le_of_not_lt hc)
        · exact h4 r hr

/-- Claim C4: with at least one route available, `find_shortest_layover`
returns one of the enumerated routes, and its total layover is minimal
among them. -/
theorem claim_C4 (g : FlightNetwork) (a b : String) (r0 : List Flight)
    (rest : List (List Flight)) (br : List Flight)
    (hall : find_all_routes g a b = .ok (r0 :: rest))
    (hbr : find_shortest_layover g a b = .ok br) :
    br ∈ r0 :: rest ∧ ∀ r ∈ r0 :: rest, total_layover br ≤ total_layover r := by
  unfold find_shortest_layover at hbr
  rw [hall] at hbr
  injection hbr with hbr
  obtain ⟨h1, h2, h3, h4⟩ := layover_fold_spec rest (r0, total_layover r0) rfl
  constructor
  · rw [← hbr]
    rcases h2 with h2 | h2
    · rw [h2]; exact List.mem_cons_self _ _
    · exact List.mem_cons_of_mem _ h2
  · intro r hr
    rw [← hbr, ← h1]
    rcases List.mem_cons.1 hr with hr | hr
    · subst hr; exact h3
    · exact h4 r hr

/-- Witness for `claim_C4` on the example network: the direct flight wins
on layover. -/
theorem claim_C4_witness :
    [fAC] ∈ [[fAB, fBC], [fAC]] ∧
    ∀ r ∈ [[fAB, fBC], [fAC]], total_layover [fAC] ≤ total_layover r :=
  claim_C4 gEx "AAAA" "CCCC" [fAB, fBC] [[fAC]] [fAC] (by decide) (by decide)

/-! ### Claim C9: behaviour of `find_shortest_layover` with no route -/

/-- Claim C9, as stated, is false: when no route exists the call does fail,
but with the `IndexError` of `all_routes[0]` on the empty list, not with a
dedicated `NoRouteFound` error (the source has no such check). -/
theorem claim_C9_counterexample :
    find_all_routes gEx "CCCC" "AAAA" = .ok [] ∧
    find_shortest_layover gEx "CCCC" "AAAA" = .error Err.indexError ∧
    find_shortest_layover gEx "CCCC" "AAAA" ≠ .error Err.noRouteFound := by decide

/-- Claim C9 (amended): when the enumeration yields zero routes,
`find_shortest_layover` fails — with the uncaught `IndexError` raised by
`all_routes[0]`. -/
theorem claim_C9 (g : FlightNetwork) (a b : String)
    (h : find_all_routes g a b = .ok []) :
    find_shortest_layover g a b = .error .indexError := by
  unfold find_shortest_layover
  rw [h]

/-- Witness for `claim_C9`: in the example network nothing flies back from
`CCCC` to `AAAA`. -/
theorem claim_C9_witness :
    find_shortest_layover gEx "CCCC" "AAAA" = .error .indexError :=
  claim_C9 gEx "CCCC" "AAAA" (by decide)

/-! ### Claim C10: `total_layover` below two flights -/

/-- Claim C10: on the empty route and on any single-flight route the loop
of `total_layover` performs no iteration and the function returns the zero
timedelta rather than failing, although its documented precondition
requires at least two flights.  (`find_shortest_layover` relies on this
whenever a direct route is among the enumerated candidates, as in the
example network, where it compares the direct flight's zero layover
against the connecting route's.) -/
theorem claim_C10 (route : List Flight) (h : route.length < 2) :
    total_layover route = 0 := by
  match route with
  | [] => rfl
  | [_] => rfl
  | _ :: _ :: _ => simp only [List.length_cons] at h; omega

/-- Witness for `claim_C10`: the single-flight direct route of the example
network. -/
theorem claim_C10_witness :
    ([fAC] : List Flight).length < 2 ∧ total_layover [fAC] = 0 :=
  ⟨by decide, claim_C10 [fAC] (by decide)⟩

/-! ### Claim C7: `add_airport` on a duplicate code -/

/-- Claim C7, as stated, is false: `add_airport` performs an unconditional
dict assignment, so re-adding an airport whose ICAO code is already
registered does not fail — it proceeds and overwrites the stored airport. -/
theorem claim_C7_counterexample :
    dictGet gEx.airports "AAAA" = some apA ∧
    add_airport gEx apA2 ≠ gEx ∧
    dictGet (add_airport gEx apA2).airports "AAAA" = some apA2 := by decide

/-- Claim C7 (amended): `add_airport` never fails; it stores the argument
under its ICAO code, overwriting any airport already registered there, and
leaves every other code's entry unchanged.  (The no-duplicate condition is
only an unchecked documented precondition.) -/
theorem claim_C7 (g : FlightNetwork) (a : Airport) :
    dictGet (add_airport g a).airports a.icao = some a ∧
    ∀ c, c ≠ a.icao → dictGet (add_airport g a).airports c = dictGet g.airports c := by
  refine ⟨dictGet_dictSet_self _ _ _, ?_⟩
  intro c hc
  exact dictGet_dictSet_ne _ _ _ _ hc

/-- Witness for `claim_C7` on the duplicate-code example. -/
theorem claim_C7_witness :
    dictGet (add_airport gEx apA2).airports "AAAA" = some apA2 ∧
    dictGet (add_airport gEx apA2).airports "BBBB" = dictGet gEx.airports "BBBB" :=
  ⟨(claim_C7 gEx apA2).1, (claim_C7 gEx apA2).2 "BBBB" (by decide)⟩

/-! ### Claim C5: airline filter -/

/-- Claim C5: `find_routes_by_airline a b x` returns exactly the routes of
`find_all_routes a b` containing at least one flight whose airline name
matches `x` case-insensitively (an any-leg filter: nothing constrains the
route's remaining flights). -/
theorem claim_C5 (g : FlightNetwork) (a b x : String) (l lf : List (List Flight))
    (hall : find_all_routes g a b = .ok l)
    (hfil : find_routes_by_airline g a b x = .ok lf) :
    ∀ r, r ∈ lf ↔ r ∈ l ∧ ∃ f ∈ r, strLower f.airline_name = strLower x := by
  unfold find_routes_by_airline at hfil
  rw [hall] at hfil
  injection hfil with hfil
  subst hfil
  intro r
  rw [List.mem_filter]
  constructor
  · rintro ⟨hmem, hpred⟩
    refine ⟨hmem, ?_⟩
    obtain ⟨f, hf, hmatch⟩ := List.any_eq_true.1 hpred
    exact ⟨f, hf, by simpa using hmatch⟩
  · rintro ⟨hmem, f, hf, hmatch⟩
    exact ⟨hmem, List.any_eq_true.2 ⟨f, hf, by simpa using hmatch⟩⟩

/-- Witness for `claim_C5`: filtering the example network by "airtwo"
keeps exactly the connecting route (whose first leg is operated by another
airline). -/
theorem claim_C5_witness :
    [fAB, fBC] ∈ [[fAB, fBC]] ↔
      [fAB, fBC] ∈ [[fAB, fBC], [fAC]] ∧
      ∃ f ∈ [fAB, fBC], strLower f.airline_name = strLower "AirTWO" :=
  claim_C5 gEx "AAAA" "CCCC" "AirTWO" [[fAB, fBC], [fAC]] [[fAB, fBC]]
    (by decide) (by decide) [fAB, fBC]

/-! ### Claim C6: visa filter -/

/-- The collected list of visa-free destination countries is non-empty
exactly when some flight of the route lands in a visa-free country. -/
theorem visaFree_nonempty (v : List String) (r : List Flight) :
    (visaFreeCountries v r).isEmpty = false ↔
      ∃ f ∈ r, f.destination.country ∉ v := by
  induction r with
  | nil => simp [visaFreeCountries]
  | cons f rest ih =>
    simp only [visaFreeCountries, List.filterMap_cons] at ih ⊢
    by_cases hc : f.destination.country ∈ v
    · rw [if_pos hc]
      rw [ih]
      constructor
      · rintro ⟨f2, hf2, hv⟩
        exact ⟨f2, List.mem_cons_of_mem _ hf2, hv⟩
      · rintro ⟨f2, hf2, hv⟩
        rcases List.mem_cons.1 hf2 with hf2 | hf2
        · subst hf2; exact absurd hc hv
        · exact ⟨f2, hf2, hv⟩
    · rw [if_neg hc]
      simp only [List.isEmpty_cons]
      constructor
      · intro _
        exact ⟨f, List.mem_cons_self _ _, hc⟩
      · intro _
        trivial

/-- Claim C6: with the external lookup returning the visa-required set
`v`, `find_valid_routes` keeps exactly the routes of `find_all_routes` in
which at least one flight lands in a country outside `v` — the any-leg
predicate, not "all legs visa-free". -/
theorem claim_C6 (visa_lookup : String → List String) (g : FlightNetwork)
    (passport a b : String) (l lv : List (List Flight))
    (hall : find_all_routes g a b = .ok l)
    (hval : find_valid_routes visa_lookup g passport a b = .ok lv) :
    ∀ r, r ∈ lv ↔ r ∈ l ∧ ∃ f ∈ r, f.destination.country ∉ visa_lookup passport := by
  unfold find_valid_routes at hval
  rw [hall] at hval
  injection hval with hval
  subst hval
  intro r
  rw [List.mem_filter]
  constructor
  · rintro ⟨hmem, hpred⟩
    rw [Bool.not_eq_true'] at hpred
    exact ⟨hmem, (visaFree_nonempty _ r).1 hpred⟩
  · rintro ⟨hmem, hex⟩
    refine ⟨hmem, ?_⟩
    rw [Bool.not_eq_true']
    exact (visaFree_nonempty _ r).2 hex

/-- Witness for `claim_C6`: with `CountryB` and `CountryC` visa-required,
the two-leg route is dropped and the iff turns into a falsity on both
sides; with only `CountryB` required both routes stay.  Instantiated here
at the kept side. -/
theorem claim_C6_witness :
    [fAC] ∈ [[fAB, fBC], [fAC]] ↔
      [fAC] ∈ [[fAB, fBC], [fAC]] ∧
      ∃ f ∈ [fAC], f.destination.country ∉ ["CountryB"] :=
  claim_C6 (fun _ => ["CountryB"]) gEx "SGP" "AAAA" "CCCC"
    [[fAB, fBC], [fAC]] [[fAB, fBC], [fAC]] (by decide) (by decide) [fAC]

/-! ### Claim C8: `add_flight` -/

/-- Claim C8, as stated, is false in its idempotency clause: `Flight`
defines no `__eq__` or `__hash__`, so the origin's set compares members by
object identity.  Adding a distinct object whose fields are identical to a
stored one is accepted and grows the set — the insertion is not idempotent
on merely field-wise identical flights. -/
theorem claim_C8_counterexample :
    fRef2.val = fRef1.val ∧
    fRef2 ≠ fRef1 ∧
    getFlightsRef gRef "BBBB" = [fRef1] ∧
    (add_flight gRef fRef2).1 = none ∧
    (add_flight gRef fRef2).2 ≠ gRef ∧
    getFlightsRef (add_flight gRef fRef2).2 "BBBB" = [fRef1, fRef2] := by decide

/-- Claim C8 (amended): `add_flight` fails exactly when an endpoint is
unregistered, failure leaves the network untouched, success puts the
argument object into its origin's departing set, and the insertion is
idempotent only when the very same object (same identity) is already
present — not when a merely field-wise identical flight is. -/
theorem claim_C8 (g : FlightNetworkRef) (f : FlightRef) :
    ((add_flight g f).1 ≠ none ↔
      dictGet g.airports f.val.origin.icao = none ∨
      dictGet g.airports f.val.destination.icao = none) ∧
    ((add_flight g f).1 ≠ none → (add_flight g f).2 = g) ∧
    ((add_flight g f).1 = none →
      f ∈ getFlightsRef (add_flight g f).2 f.val.origin.icao) ∧
    ((add_flight g f).1 = none → f ∈ getFlightsRef g f.val.origin.icao →
      (add_flight g f).2 = g) := by
  by_cases ho : dictGet g.airports f.val.origin.icao = none
  · unfold add_flight
    rw [ho]
    refine ⟨?_, ?_, ?_, ?_⟩ <;> simp [ho]
  · by_cases hd : dictGet g.airports f.val.destination.icao = none
    · unfold add_flight
      rw [hd]
      have ho' : (dictGet g.airports f.val.origin.icao).isNone = false := by
        simp [Option.isNone_eq_false_iff, Option.isSome_iff_ne_none, ho]
      refine ⟨?_, ?_, ?_, ?_⟩ <;> simp [ho', hd]
    · have ho' : (dictGet g.airports f.val.origin.icao).isNone = false := by
        simp [Option.isNone_eq_false_iff, Option.isSome_iff_ne_none, ho]
      have hd' : (dictGet g.airports f.val.destination.icao).isNone = false := by
        simp [Option.isNone_eq_false_iff, Option.isSome_iff_ne_none, hd]
      refine ⟨?_, ?_, ?_, ?_⟩
      · unfold add_flight
        rw [ho', hd']
        cases hget : dictGet g.flights f.val.origin.icao <;> simp [ho, hd]
      · intro hne
        exfalso
        apply hne
        unfold add_flight
        rw [ho', hd']
        cases hget : dictGet g.flights f.val.origin.icao <;> simp
      · intro _
        unfold add_flight getFlightsRef
        rw [ho', hd']
        simp only [Bool.false_eq_true, if_false]
        cases hget : dictGet g.flights f.val.origin.icao with
        | none =>
          simp only
          rw [dictGet_append, hget]
          simp [dictGet]
        | some s =>
          simp only
          rw [dictGet_dictSet_self]
          simp only [Option.getD_some]
          unfold setAdd
          by_cases hmem : f ∈ s
          · rw [if_pos hmem]; exact hmem
          · rw [if_neg hmem]; simp
      · intro _ hmem
        unfold getFlightsRef at hmem
        cases hget : dictGet g.flights f.val.origin.icao with
        | none => rw [hget] at hmem; simp at hmem
        | some s =>
          rw [hget] at hmem
          simp only [Option.getD_some] at hmem
          unfold add_flight
          rw [ho', hd']
          simp only [Bool.false_eq_true, if_false]
          rw [hget]
          simp only
          unfold setAdd
          rw [if_pos hmem, dictSet_self_of_get hget]

/-- Witness for `claim_C8`: a fresh flight object lands in its origin's
departing set; an object with an unknown origin is rejected leaving the
network unchanged; and re-adding the very object already stored changes
nothing. -/
theorem claim_C8_witness :
    fRefNew ∈ getFlightsRef (add_flight gRef fRefNew).2 fRefNew.val.origin.icao ∧
    (add_flight gRef fRefGhost).2 = gRef ∧
    (add_flight gRef fRef1).2 = gRef :=
  ⟨(claim_C8 gRef fRefNew).2.2.1 (by decide),
   (claim_C8 gRef fRefGhost).2.1 (by decide),
   (claim_C8 gRef fRef1).2.2.2 (by decide) (by decide)⟩

/-! ### Claim C3: the shortest-flight-time search -/

theorem tdLe_refl (x : Option Int) : tdLe x x := by
  cases x <;> simp [tdLe]

theorem tdLe_trans {x y z : Option Int} (h1 : tdLe x y) (h2 : tdLe y z) : tdLe x z := by
  cases x <;> cases y <;> cases z <;> simp_all [tdLe]
  omega

theorem tdLe_of_tdLt {x y : Option Int} (h : tdLt x y = true) : tdLe x y := by
  cases x <;> cases y <;> simp_all [tdLt, tdLe]
  omega

theorem tdLe_of_not_tdLt {x y : Option Int} (h : ¬ tdLt x y = true) : tdLe y x := by
  cases x <;> cases y <;> simp_all [tdLt, tdLe]

theorem routeCost_append_one (cf : List Flight) (f : Flight) :
    routeCost (cf ++ [f]) = routeCost cf + f.get_duration := by
  simp [routeCost]

theorem routeCodes_append_one (a : String) (cf : List Flight) (f : Flight) :
    routeCodes a (cf ++ [f]) = routeCodes a cf ++ [f.destination.icao] := by
  simp [routeCodes]

theorem fstp_rec_zero (g : FlightNetwork) (start target : String) (visited : List String)
    (ct : Int) (cf : List Flight) (best : List Flight × Option Int) :
    fstp_rec g 0 start target visited ct cf best = best := rfl

theorem fstp_rec_succ (g : FlightNetwork) (fuel : Nat) (start target : String)
    (visited : List String) (ct : Int) (cf : List Flight)
    (best : List Flight × Option Int) :
    fstp_rec g (fuel + 1) start target visited ct cf best =
      if start = target then
        if tdLt (some ct) best.2 then (cf, some ct) else best
      else
        if ((getFlights g start).foldl (fstpStep g fuel start target visited ct cf)
            best).1.isEmpty
        then ([], none)
        else (getFlights g start).foldl (fstpStep g fuel start target visited ct cf) best :=
  rfl

/-- Generic branch-and-bound fold lemma: if one loop iteration preserves
the incumbent invariant, never worsens the incumbent, and bounds it by the
cost of every route in the iteration's branch, then so does the whole
fold, over all branches. -/
theorem bb_fold_spec (P : List Flight × Option Int → Prop) (Q : Flight → Prop)
    (step : List Flight × Option Int → Flight → List Flight × Option Int)
    (branch : Flight → List (List Flight))
    (hstep : ∀ b0 f, Q f → P b0 →
      P (step b0 f) ∧ tdLe (step b0 f).2 b0.2 ∧
      ∀ r ∈ branch f, tdLe (step b0 f).2 (some (routeCost r))) :
    ∀ fs : List Flight, (∀ f ∈ fs, Q f) → ∀ b0, P b0 →
      P (fs.foldl step b0) ∧ tdLe (fs.foldl step b0).2 b0.2 ∧
      ∀ f ∈ fs, ∀ r ∈ branch f, tdLe (fs.foldl step b0).2 (some (routeCost r)) := by
  intro fs
  induction fs with
  | nil =>
    intro hQ b0 hb0
    exact ⟨hb0, tdLe_refl _, by simp⟩
  | cons f fs ihf =>
    intro hQ b0 hb0
    obtain ⟨s1, s2, s3⟩ := hstep b0 f (hQ f (List.mem_cons_self _ _)) hb0
    obtain ⟨g1, g2, g3⟩ := ihf (fun f2 hf2 => hQ f2 (List.mem_cons_of_mem _ hf2)) (step b0 f) s1
    simp only [List.foldl_cons]
    refine ⟨g1, tdLe_trans g2 s2, ?_⟩
    intro f2 hf2 r hr
    rcases List.mem_cons.1 hf2 with hf2 | hf2
    · subst hf2
      exact tdLe_trans g2 (s3 r hr)
    · exact g3 f2 hf2 r hr

/-- One iteration of the branch-and-bound loop: assuming the recursive
call at the next depth meets the search specification, the iteration
preserves achievability of the incumbent, never worsens it, and leaves it
bounded by the cost of every complete route through the examined flight
(this is where pruning soundness uses the positivity of flight
durations). -/
theorem fstp_step_spec (g : FlightNetwork) (hwf : Wf g) (a b : String)
    (fuel : Nat) (current : String) (visited : List String) (cf : List Flight)
    (hchain : chainFrom g a current cf)
    (hcodes : routeCodes a cf = visited.reverse ++ [current])
    (hnodup : (routeCodes a cf).Nodup)
    (ih : ∀ (current2 : String) (visited2 : List String) (cf2 : List Flight)
        (best2 : List Flight × Option Int),
        chainFrom g a current2 cf2 →
        routeCodes a cf2 = visited2.reverse ++ [current2] →
        (routeCodes a cf2).Nodup →
        GoodBest g a b best2 →
        GoodBest g a b (fstp_rec g fuel current2 b visited2 (routeCost cf2) cf2 best2) ∧
        tdLe (fstp_rec g fuel current2 b visited2 (routeCost cf2) cf2 best2).2 best2.2 ∧
        ∀ r ∈ find_paths g fuel current2 b cf2 visited2,
          tdLe (fstp_rec g fuel current2 b visited2 (routeCost cf2) cf2 best2).2
            (some (routeCost r)))
    (b0 : List Flight × Option Int) (f : Flight)
    (hf : f ∈ getFlights g current) (hb0 : GoodBest g a b b0) :
    GoodBest g a b (fstpStep g fuel current b visited (routeCost cf) cf b0 f) ∧
    tdLe (fstpStep g fuel current b visited (routeCost cf) cf b0 f).2 b0.2 ∧
    ∀ r, r ∈ (if f.destination.icao ∈ current :: visited then []
          else find_paths g fuel f.destination.icao b (cf ++ [f]) (current :: visited)) →
      tdLe (fstpStep g fuel current b visited (routeCost cf) cf b0 f).2
        (some (routeCost r)) := by
  unfold fstpStep
  by_cases hvis : f.destination.icao ∈ current :: visited
  · rw [if_pos hvis, if_pos hvis]
    exact ⟨hb0, tdLe_refl _, by simp⟩
  · rw [if_neg hvis, if_neg hvis]
    have hctr : routeCost cf + f.get_duration = routeCost (cf ++ [f]) :=
      (routeCost_append_one cf f).symm
    rw [hctr]
    have hchain2 : chainFrom g a f.destination.icao (cf ++ [f]) :=
      chainFrom_append_one hchain hf
    have hcodes2 : routeCodes a (cf ++ [f]) =
        (current :: visited).reverse ++ [f.destination.icao] := by
      rw [routeCodes_append_one, hcodes, List.reverse_cons, List.append_assoc]
    have hnodup2 : (routeCodes a (cf ++ [f])).Nodup := by
      rw [routeCodes_append_one, List.nodup_append]
      refine ⟨hnodup, List.nodup_singleton _, ?_⟩
      intro x hx hx2
      rw [List.mem_singleton] at hx2
      subst hx2
      rw [hcodes] at hx
      rcases List.mem_append.1 hx with hx | hx
      · exact hvis (List.mem_cons_of_mem _ (List.mem_reverse.1 hx))
      · rw [List.mem_singleton] at hx
        exact hvis (hx ▸ List.mem_cons_self _ _)
    obtain ⟨I1, I2, I3⟩ := ih f.destination.icao (current :: visited) (cf ++ [f]) b0
      hchain2 hcodes2 hnodup2 hb0
    by_cases hprune : tdLt (some (routeCost (cf ++ [f]))) b0.2 = true
    · rw [if_pos hprune]
      by_cases himp : tdLt (fstp_rec g fuel f.destination.icao b (current :: visited)
          (routeCost (cf ++ [f])) (cf ++ [f]) b0).2 b0.2 = true
      · rw [if_pos himp]
        exact ⟨I1, tdLe_of_tdLt himp, I3⟩
      · rw [if_neg himp]
        refine ⟨hb0, tdLe_refl _, ?_⟩
        intro r hr
        exact tdLe_trans (tdLe_of_not_tdLt himp) (I3 r hr)
    · rw [if_neg hprune]
      refine ⟨hb0, tdLe_refl _, ?_⟩
      intro r hr
      obtain ⟨ext, hre, hext, -, -⟩ := find_paths_sound g b fuel f.destination.icao
        (cf ++ [f]) (current :: visited) r hr
      have hnn : 0 ≤ routeCost ext := chainFrom_flights_cost_nonneg hwf hext
      have hcost : routeCost (cf ++ [f]) ≤ routeCost r := by
        rw [hre, routeCost_append (cf ++ [f]) ext]
        omega
      exact tdLe_trans (tdLe_of_not_tdLt hprune) hcost

/-- Specification of the branch-and-bound recursion: along any search
state reachable from the top-level call (the accumulated path is a simple
chain from `a` whose airports are exactly `visited` plus the current one,
and the accumulated time is its cost), the search returns an incumbent
that is achievable-or-initial, never worse than the one passed in, and at
most the cost of every complete route the unpruned enumeration
(`find_paths`, at the same fuel) would find from this state. -/
theorem fstp_rec_spec (g : FlightNetwork) (hwf : Wf g) (a b : String) (hab : a ≠ b) :
    ∀ (fuel : Nat) (current : String) (visited : List String) (cf : List Flight)
      (best : List Flight × Option Int),
      chainFrom g a current cf →
      routeCodes a cf = visited.reverse ++ [current] →
      (routeCodes a cf).Nodup →
      GoodBest g a b best →
      GoodBest g a b (fstp_rec g fuel current b visited (routeCost cf) cf best) ∧
      tdLe (fstp_rec g fuel current b visited (routeCost cf) cf best).2 best.2 ∧
      ∀ r ∈ find_paths g fuel current b cf visited,
        tdLe (fstp_rec g fuel current b visited (routeCost cf) cf best).2
          (some (routeCost r)) := by
  intro fuel
  induction fuel with
  | zero =>
    intro current visited cf best hchain hcodes hnodup hgood
    exact ⟨hgood, tdLe_refl _, by intro r hr; simp [find_paths] at hr⟩
  | succ fuel ih =>
    intro current visited cf best hchain hcodes hnodup hgood
    by_cases hcb : current = b
    · rw [fstp_rec_succ, if_pos hcb, find_paths_succ, if_pos hcb]
      have hcfne : cf ≠ [] := by
        intro hnil
        subst hnil
        exact hab (hchain.trans hcb)
      by_cases hlt : tdLt (some (routeCost cf)) best.2 = true
      · rw [if_pos hlt]
        refine ⟨Or.inr ⟨hcb ▸ hchain, hcfne, hnodup, rfl⟩, tdLe_of_tdLt hlt, ?_⟩
        intro r hr
        simp only [List.mem_singleton] at hr
        subst hr
        exact tdLe_refl _
      · rw [if_neg hlt]
        refine ⟨hgood, tdLe_refl _, ?_⟩
        intro r hr
        simp only [List.mem_singleton] at hr
        subst hr
        exact tdLe_of_not_tdLt hlt
    · rw [fstp_rec_succ, if_neg hcb, find_paths_succ, if_neg hcb]
      obtain ⟨G1, G2, G3⟩ := bb_fold_spec (GoodBest g a b)
        (fun f => f ∈ getFlights g current)
        (fstpStep g fuel current b visited (routeCost cf) cf)
        (fun f => if f.destination.icao ∈ current :: visited then []
          else find_paths g fuel f.destination.icao b (cf ++ [f]) (current :: visited))
        (fun b0 f hf hb0 =>
          fstp_step_spec g hwf a b fuel current visited cf hchain hcodes hnodup ih b0 f hf hb0)
        (getFlights g current) (fun f hf => hf) best hgood
      by_cases hemp : ((getFlights g current).foldl
          (fstpStep g fuel current b visited (routeCost cf) cf) best).1.isEmpty = true
      · rw [if_pos hemp]
        have hFB : (getFlights g current).foldl
            (fstpStep g fuel current b visited (routeCost cf) cf) best = ([], none) := by
          rcases G1 with h | h
          · exact h
          · exact absurd (List.isEmpty_iff.1 hemp) h.2.1
        rw [hFB] at G2 G3
        refine ⟨Or.inl rfl, G2, ?_⟩
        intro r hr
        rw [List.mem_flatMap] at hr
        obtain ⟨f, hf, hr⟩ := hr
        exact G3 f hf r hr
      · rw [if_neg hemp]
        refine ⟨G1, G2, ?_⟩
        intro r hr
        rw [List.mem_flatMap] at hr
        obtain ⟨f, hf, hr⟩ := hr
        exact G3 f hf r hr

/-- Claim C3: on a well-formed network, the route returned by
`find_shortest_time_path a b` has a summed flight duration no greater than
that of every route `find_all_routes a b` returns (layovers excluded), and
when no route exists the result is the empty route paired with the
`timedelta.max` sentinel. -/
theorem claim_C3 (g : FlightNetwork) (a b : String) (l : List (List Flight))
    (pt : List Flight × Option Int) (hwf : Wf g)
    (hall : find_all_routes g a b = .ok l)
    (hshort : find_shortest_time_path g a b = .ok pt) :
    (∀ r ∈ l, routeCost pt.1 ≤ routeCost r) ∧
    (l = [] → pt = ([], none)) := by
  unfold find_all_routes at hall
  unfold find_shortest_time_path at hshort
  by_cases h1 : (dictGet g.airports a).isNone
  · rw [if_pos h1] at hall; cases hall
  · rw [if_neg h1] at hall hshort
    by_cases h2 : (dictGet g.airports b).isNone
    · rw [if_pos h2] at hall; cases hall
    · rw [if_neg h2] at hall hshort
      injection hall with hall
      injection hshort with hshort
      subst hall
      by_cases hab : a = b
      · subst hab
        obtain ⟨k, hk⟩ : ∃ k, fuelOf g = k + 1 :=
          ⟨g.airports.length + g.flights.length + 1, rfl⟩
        rw [hk] at hshort ⊢
        have hred : fstp_rec g (k + 1) a a [] 0 [] ([], none) = ([], some 0) := by
          rw [fstp_rec_succ, if_pos (rfl : a = a)]
          rfl
        have hfp : find_paths g (k + 1) a a [] [] = [[]] := by
          rw [find_paths_succ, if_pos (rfl : a = a)]
        rw [hred] at hshort
        subst hshort
        rw [hfp]
        constructor
        · intro r hr
          simp only [List.mem_singleton] at hr
          subst hr
          exact le_refl _
        · intro hl
          simp at hl
      · have h0 : routeCost ([] : List Flight) = 0 := rfl
        obtain ⟨HG, -, HO⟩ := fstp_rec_spec g hwf a b hab (fuelOf g) a [] [] ([], none)
          rfl (by simp [routeCodes]) (by simp [routeCodes]) (Or.inl rfl)
        rw [h0] at HG HO
        rw [hshort] at HG HO
        constructor
        · intro r hr
          have hle := HO r hr
          rcases HG with hG | hG
          · rw [hG] at hle
            simp [tdLe] at hle
          · obtain ⟨-, -, -, hsnd⟩ := hG
            rw [hsnd] at hle
            exact hle
        · intro hl
          rcases HG with hG | hG
          · exact hG
          · obtain ⟨hchain, hne, hsimple, -⟩ := hG
            exfalso
            have hmem := find_paths_complete g b pt.1 (fuelOf g) a [] [] hchain hsimple
              (by simp) (by
                have hlen := chain_length_le hchain hsimple
                unfold fuelOf
                omega)
            rw [List.nil_append, hl] at hmem
            simp at hmem

/-- Witness for `claim_C3` on the example network: the two-leg route has
total flight time 240 minutes, below the direct flight's 360. -/
theorem claim_C3_witness :
    (∀ r ∈ [[fAB, fBC], [fAC]], routeCost ([fAB, fBC], some (240 : Int)).1 ≤ routeCost r) ∧
    ([[fAB, fBC], [fAC]] = ([] : List (List Flight)) →
      ([fAB, fBC], some (240 : Int)) = ([], none)) :=
  claim_C3 gEx "AAAA" "CCCC" [[fAB, fBC], [fAC]] ([fAB, fBC], some 240)
    (by decide) (by decide) (by decide)
